import Mathlib

/-
  Verification of the appbase plugin lifecycle controller and its
  configuration-merge engine (src/application.cpp), as a shallow embedding.

  Plugins are identified by their unique name (a String).  Hook bodies are
  opaque to the controller; the only observable behaviour of a hook that the
  controller depends on is whether it raises, so hooks are modelled by a
  function from plugin names to Bool ("does this plugin's hook throw here")
  and by events recorded in a trace.
-/

namespace appbase

/-- Lifecycle states of a plugin (spec section 3; the enum lives in the public
header appbase/application.hpp). -/
inductive PluginState
  | registered
  | initialized
  | started
  | stopped
deriving DecidableEq, Repr

/-- Observable actions the controller performs on plugins, recorded in traces:
invoking a plugin's initialize / startup / shutdown hook, and erasing a
plugin's entry from the registry map. -/
inductive Event
  | initHook (name : String)
  | startupHook (name : String)
  | shutdownHook (name : String)
  | eraseRegistry (name : String)
deriving DecidableEq, Repr

/-- The controller state of class application: the registry map
(name to plugin, a plugin being abstracted to its lifecycle state), the
initialized-order list and the started-order list. -/
structure AppState where
  plugins : List (String × PluginState)
  initialized_plugins : List String
  running_plugins : List String
deriving DecidableEq, Repr

/-- Lookup in the registry map (std::map::find keyed by plugin name): scan
for the entry with the given key and return its mapped plugin state. -/
def lookupState : List (String × PluginState) → String → Option PluginState
  | [], _ => none
  | p :: rest, name => if p.1 == name then some p.2 else lookupState rest name

/-- Overwrite the state stored for a plugin name in the registry (the C++
mutates the plugin object held by the registry entry in place). -/
def setState : List (String × PluginState) → String → PluginState →
    List (String × PluginState)
  | [], _, _ => []
  | p :: rest, name, st =>
    (if p.1 == name then (p.1, st) else p) :: setState rest name st

/-- A C++ loop from rbegin() to rend() emitting one event per element: the
elements of the list are visited last-to-first. -/
def revIter (f : String → Event) : List String → List Event
  | [] => []
  | x :: xs => revIter f xs ++ [f x]

/-- plugins.erase(name): remove the entry with the given key from the
registry map. -/
def eraseKey (reg : List (String × PluginState)) (k : String) :
    List (String × PluginState) :=
  reg.filter (fun p => p.1 != k)

/-- application::shutdown (src/application.cpp lines 266-279): a first loop
over running_plugins in reverse invokes each shutdown hook; a second loop,
again in reverse, erases those entries from the registry; finally
running_plugins, initialized_plugins and plugins are cleared. -/
def application.shutdown (s : AppState) : List Event × AppState :=
  let hookTrace := revIter Event.shutdownHook s.running_plugins
  let s1 : AppState :=
    { s with plugins := (s.running_plugins.reverse).foldl eraseKey s.plugins }
  let eraseTrace := revIter Event.eraseRegistry s.running_plugins
  (hookTrace ++ eraseTrace,
   { s1 with running_plugins := [], initialized_plugins := [], plugins := [] })

/-- Modelled from the spec: plugin template startup lives in the public header
appbase/application.hpp, which is not part of src/.  Spec 4.1: for a plugin
in state initialized, invoke its startup hook and transition it to started,
appending it to the started-order list; a raising hook propagates (the third
component is the raised flag); on any other state the call does nothing. -/
def plugin.startup (throws : String → Bool) (s : AppState) (name : String) :
    List Event × AppState × Bool :=
  if lookupState s.plugins name == some PluginState.initialized then
    if throws name then ([Event.startupHook name], s, true)
    else ([Event.startupHook name],
      { s with plugins := setState s.plugins name PluginState.started,
               running_plugins := s.running_plugins ++ [name] },
      false)
  else ([], s, false)

/-- The loop body of application::startup: call plugin startup on each entry
of the initialized-order list in order, stopping at the first raised
exception. -/
def startupAll (throws : String → Bool) :
    List String → AppState → List Event × AppState × Bool
  | [], s => ([], s, false)
  | p :: rest, s =>
    match plugin.startup throws s p with
    | (tr, s1, true) => (tr, s1, true)
    | (tr, s1, false) =>
      match startupAll throws rest s1 with
      | (tr2, s2, raised) => (tr ++ tr2, s2, raised)

/-- application::startup (src/application.cpp lines 85-93): iterate
initialized_plugins invoking each startup; on an exception, call shutdown and
re-raise (the Bool component records that the exception propagates to the
caller). -/
def application.startup (throws : String → Bool) (s : AppState) :
    List Event × AppState × Bool :=
  match startupAll throws s.initialized_plugins s with
  | (tr, s1, true) =>
    match application.shutdown s1 with
    | (tr2, s2) => (tr ++ tr2, s2, true)
  | (tr, s1, false) => (tr, s1, false)

theorem revIter_eq_reverse_map (f : String → Event) (l : List String) :
    revIter f l = l.reverse.map f := by
  induction l with
  | nil => rfl
  | cons x xs ih => simp [revIter, ih]

theorem shutdown_eq (s : AppState) :
    application.shutdown s =
      (s.running_plugins.reverse.map Event.shutdownHook
         ++ s.running_plugins.reverse.map Event.eraseRegistry,
       { plugins := [], initialized_plugins := [], running_plugins := [] }) := by
  simp [application.shutdown, revIter_eq_reverse_map]

theorem lookupState_setState_ne (reg : List (String × PluginState))
    (n m : String) (st : PluginState) (h : m ≠ n) :
    lookupState (setState reg n st) m = lookupState reg m := by
  induction reg with
  | nil => rfl
  | cons p rest ih =>
    simp only [setState, lookupState]
    have hnm : ¬ (n = m) := fun e => h e.symm
    by_cases hp : p.1 = n
    · simp [beq_iff_eq, hp, hnm, ih]
    · simp [beq_iff_eq, hp, ih]

theorem startupAll_ok (throws : String → Bool) (pre : List String)
    (s : AppState)
    (hthrow : ∀ p ∈ pre, throws p = false)
    (hstate : ∀ p ∈ pre, lookupState s.plugins p = some PluginState.initialized)
    (hnd : pre.Nodup) :
    startupAll throws pre s =
      (pre.map Event.startupHook,
       ⟨pre.foldl (fun r p => setState r p PluginState.started) s.plugins,
        s.initialized_plugins,
        s.running_plugins ++ pre⟩,
       false) := by
  induction pre generalizing s with
  | nil => simp [startupAll]
  | cons p rest ih =>
    have hp := hstate p (by simp)
    have hptf := hthrow p (by simp)
    have hnotin : p ∉ rest := (List.nodup_cons.mp hnd).1
    have hrest :
        ∀ q ∈ rest,
          lookupState (setState s.plugins p PluginState.started) q =
            some PluginState.initialized := by
      intro q hq
      have hqp : q ≠ p := by intro e; exact hnotin (e ▸ hq)
      rw [lookupState_setState_ne _ _ _ _ hqp]
      exact hstate q (by simp [hq])
    have ihr := ih
      ⟨setState s.plugins p PluginState.started, s.initialized_plugins,
       s.running_plugins ++ [p]⟩
      (fun q hq => hthrow q (by simp [hq])) hrest (List.nodup_cons.mp hnd).2
    simp [startupAll, plugin.startup, hp, hptf, ihr, List.append_assoc]

theorem startupAll_first_raise (throws : String → Bool) (pre post : List String)
    (f : String) (s : AppState)
    (hthrow : ∀ p ∈ pre, throws p = false)
    (hf : throws f = true)
    (hstate : ∀ p ∈ pre, lookupState s.plugins p = some PluginState.initialized)
    (hfstate : lookupState s.plugins f = some PluginState.initialized)
    (hnd : pre.Nodup) (hfpre : f ∉ pre) :
    startupAll throws (pre ++ f :: post) s =
      (pre.map Event.startupHook ++ [Event.startupHook f],
       ⟨pre.foldl (fun r p => setState r p PluginState.started) s.plugins,
        s.initialized_plugins,
        s.running_plugins ++ pre⟩,
       true) := by
  induction pre generalizing s with
  | nil => simp [startupAll, plugin.startup, hfstate, hf]
  | cons p rest ih =>
    have hp := hstate p (by simp)
    have hptf := hthrow p (by simp)
    have hnotin : p ∉ rest := (List.nodup_cons.mp hnd).1
    have hfp : f ≠ p := fun e => hfpre (by simp [e])
    have hrest :
        ∀ q ∈ rest,
          lookupState (setState s.plugins p PluginState.started) q =
            some PluginState.initialized := by
      intro q hq
      have hqp : q ≠ p := by intro e; exact hnotin (e ▸ hq)
      rw [lookupState_setState_ne _ _ _ _ hqp]
      exact hstate q (by simp [hq])
    have hfrest :
        lookupState (setState s.plugins p PluginState.started) f =
          some PluginState.initialized := by
      rw [lookupState_setState_ne _ _ _ _ hfp]; exact hfstate
    have ihr := ih
      ⟨setState s.plugins p PluginState.started, s.initialized_plugins,
       s.running_plugins ++ [p]⟩
      (fun q hq => hthrow q (by simp [hq]))
      hrest hfrest (List.nodup_cons.mp hnd).2
      (fun hmem => hfpre (by simp [hmem]))
    simp [startupAll, plugin.startup, hp, hptf, ihr, List.append_assoc]

/-- Claim C2: if a plugin's startup hook raises during application::startup
over the initialized-order list, the controller first invokes the startup
hooks of the plugins before it, then on the failure calls shutdown, so every
plugin started before the failing one receives a shutdown call (the started
prefix appears reversed as shutdownHook events after the failing startupHook
event), and then re-raises the original exception to the caller (the final
Bool is true); no partial start is left running (the final controller state is
fully cleared). -/
theorem startup_failure_unwinds (throws : String → Bool) (s : AppState)
    (pre post : List String) (f : String)
    (hinit : s.initialized_plugins = pre ++ f :: post)
    (hthrow : ∀ p ∈ pre, throws p = false)
    (hf : throws f = true)
    (hstate : ∀ p ∈ pre, lookupState s.plugins p = some PluginState.initialized)
    (hfstate : lookupState s.plugins f = some PluginState.initialized)
    (hnd : pre.Nodup) (hfpre : f ∉ pre) :
    application.startup throws s =
      (pre.map Event.startupHook ++ [Event.startupHook f]
         ++ (s.running_plugins ++ pre).reverse.map Event.shutdownHook
         ++ (s.running_plugins ++ pre).reverse.map Event.eraseRegistry,
       ⟨[], [], []⟩, true) := by
  unfold application.startup
  rw [hinit,
    startupAll_first_raise throws pre post f s hthrow hf hstate hfstate hnd hfpre]
  simp [shutdown_eq, List.append_assoc]

theorem startup_failure_unwinds_witness :
    application.startup (fun n => n == "B")
        ⟨[("A", PluginState.initialized), ("B", PluginState.initialized)],
         ["A", "B"], []⟩ =
      ([Event.startupHook "A", Event.startupHook "B",
        Event.shutdownHook "A", Event.eraseRegistry "A"],
       ⟨[], [], []⟩, true) := by
  have h := startup_failure_unwinds (fun n => n == "B")
    ⟨[("A", PluginState.initialized), ("B", PluginState.initialized)],
     ["A", "B"], []⟩
    ["A"] [] "B" (by decide) (by decide) (by decide) (by decide) (by decide)
    (by decide) (by decide)
  simpa using h

/-- Claim C1: application::shutdown invokes every started plugin's shutdown
hook in exact reverse of the started order (the trace of shutdown-hook events
is the reverse of running_plugins), and only after all shutdown hooks have run
does it erase registry entries (all eraseRegistry events follow all
shutdownHook events in the trace) and clear the registry, the
initialized-order list and the started-order list (the final state is
empty). -/
theorem shutdown_reverse_hooks_then_erase (s : AppState) :
    application.shutdown s =
      (s.running_plugins.reverse.map Event.shutdownHook
         ++ s.running_plugins.reverse.map Event.eraseRegistry,
       { plugins := [], initialized_plugins := [], running_plugins := [] }) :=
  shutdown_eq s

/-- application::find_plugin (src/application.cpp lines 361-368): look the
name up in the registry map; return null (none) when absent, the plugin
otherwise. -/
def application.find_plugin (s : AppState) (name : String) :
    Option PluginState :=
  lookupState s.plugins name

/-- application::get_plugin (src/application.cpp lines 370-375): call
find_plugin; on null throw std::runtime_error("unable to find plugin: " plus
the name), modelled as an Except error carrying the what() string. -/
def application.get_plugin (s : AppState) (name : String) :
    Except String PluginState :=
  match application.find_plugin s name with
  | none => Except.error ("unable to find plugin: " ++ name)
  | some p => Except.ok p

/-- Exceptions that can escape the plugin-activation part of
application::initialize_impl. -/
inductive AppError
  | pluginNotFound (name : String)
  | initHookError (name : String)
deriving DecidableEq, Repr

/-- Modelled from the spec: plugin template initialize lives in the public
header appbase/application.hpp, which is not part of src/.  Spec 4.1:
initialize is legal only from state registered; it calls the plugin's
initialization hook, transitions it to initialized, and appends it to the
initialized-order list; calling it on a plugin not in registered state is a
no-op.  A raising hook propagates (the third component is the raised
flag). -/
def plugin.initialize (throwsInit : String → Bool) (s : AppState)
    (name : String) : List Event × AppState × Bool :=
  if lookupState s.plugins name == some PluginState.registered then
    if throwsInit name then ([Event.initHook name], s, true)
    else ([Event.initHook name],
      { s with plugins := setState s.plugins name PluginState.initialized,
               initialized_plugins := s.initialized_plugins ++ [name] },
      false)
  else ([], s, false)

/-- The delimiter class of boost::is_any_of(" \t,") used for the values of
the --plugin option (src/application.cpp line 247). -/
def isOptDelim (c : Char) : Bool := c == ' ' || c == '\t' || c == ','

/-- boost::split on a character list: cut at every delimiter occurrence,
keeping empty tokens (token_compress is off). -/
def splitCore : List Char → List String
  | [] => [""]
  | c :: cs =>
    if isOptDelim c then "" :: splitCore cs
    else
      match splitCore cs with
      | [] => [String.singleton c]
      | t :: ts => (String.singleton c ++ t) :: ts

/-- boost::split(names, arg, boost::is_any_of(" \t,")) from
src/application.cpp line 247. -/
def splitNames (arg : String) : List String := splitCore arg.data

/-- The inner loop of the --plugin handling (src/application.cpp lines
248-249): for each split-off name, get_plugin(name).initialize(options).
An unknown name raises from get_plugin; a raising initialize hook also
propagates.  The trace records the events up to the raise. -/
def initNamesLoop (throwsInit : String → Bool) :
    List String → AppState → List Event × AppState × Option AppError
  | [], s => ([], s, none)
  | n :: rest, s =>
    match application.get_plugin s n with
    | Except.error _ => ([], s, some (AppError.pluginNotFound n))
    | Except.ok _ =>
      match plugin.initialize throwsInit s n with
      | (tr, s1, true) => (tr, s1, some (AppError.initHookError n))
      | (tr, s1, false) =>
        match initNamesLoop throwsInit rest s1 with
        | (tr2, s2, e) => (tr ++ tr2, s2, e)

/-- The outer loop of the --plugin handling (src/application.cpp lines
244-250): each occurrence of the composing --plugin option is split on
spaces, tabs and commas and the resulting names are processed in order. -/
def pluginArgsLoop (throwsInit : String → Bool) :
    List String → AppState → List Event × AppState × Option AppError
  | [], s => ([], s, none)
  | arg :: rest, s =>
    match initNamesLoop throwsInit (splitNames arg) s with
    | (tr, s1, some e) => (tr, s1, some e)
    | (tr, s1, none) =>
      match pluginArgsLoop throwsInit rest s1 with
      | (tr2, s2, e) => (tr ++ tr2, s2, e)

/-- The autostart loop (src/application.cpp lines 253-255): each autostart
plugin is initialized only if it is still in the registered state.  (The
C++ also skips null pointers; autostart entries are modelled by name.) -/
def autostartLoop (throwsInit : String → Bool) :
    List String → AppState → List Event × AppState × Option AppError
  | [], s => ([], s, none)
  | n :: rest, s =>
    if lookupState s.plugins n == some PluginState.registered then
      match plugin.initialize throwsInit s n with
      | (tr, s1, true) => (tr, s1, some (AppError.initHookError n))
      | (tr, s1, false) =>
        match autostartLoop throwsInit rest s1 with
        | (tr2, s2, e) => (tr ++ tr2, s2, e)
    else autostartLoop throwsInit rest s

/-- Possible outcomes of the plugin-activation part of initialize_impl:
the function reaches its final return true; the catch block swallows an
exception, prints "Failed to initialize" and returns false; or an exception
escapes initialize_impl to its caller. -/
inductive InitOutcome
  | proceeded (tr : List Event) (s : AppState)
  | failedInit (tr : List Event) (s : AppState)
  | raised (tr : List Event) (e : AppError)
deriving DecidableEq, Repr

def InitOutcome.isRaised : InitOutcome → Bool
  | InitOutcome.raised _ _ => true
  | _ => false

/-- The plugin-activation tail of application::initialize_impl
(src/application.cpp lines 241-263): first the --plugin loop, which is NOT
inside any try block, so its exceptions escape; then the autostart loop and
bpo::notify inside try { ... } catch (...) { return false; }.  The --plugin
option's parsed occurrence list is passed as pluginOpt (none when the option
was not given). -/
def initializePlugins (throwsInit : String → Bool)
    (pluginOpt : Option (List String)) (autostart : List String)
    (s : AppState) : InitOutcome :=
  let step1 :=
    match pluginOpt with
    | some args => pluginArgsLoop throwsInit args s
    | none => ([], s, none)
  match step1 with
  | (tr, _, some e) => InitOutcome.raised tr e
  | (tr, s1, none) =>
    match autostartLoop throwsInit autostart s1 with
    | (tr2, s2, some _) => InitOutcome.failedInit (tr ++ tr2) s2
    | (tr2, s2, none) => InitOutcome.proceeded (tr ++ tr2) s2

theorem lookupState_eq_none_iff (reg : List (String × PluginState))
    (name : String) :
    lookupState reg name = none ↔ name ∉ reg.map Prod.fst := by
  induction reg with
  | nil => simp [lookupState]
  | cons p rest ih =>
    simp only [lookupState, List.map_cons, List.mem_cons]
    by_cases hp : p.1 = name
    · simp [hp, beq_iff_eq]
    · have : ¬ (name = p.1) := fun e => hp e.symm
      simp [hp, beq_iff_eq, this, ih]

theorem lookupState_mem (reg : List (String × PluginState)) (name : String)
    (st : PluginState) (h : lookupState reg name = some st) : (name, st) ∈ reg := by
  induction reg with
  | nil => simp [lookupState] at h
  | cons p rest ih =>
    simp only [lookupState, beq_iff_eq] at h
    by_cases hp : p.1 = name
    · rw [if_pos hp] at h
      injection h with h2
      obtain ⟨k, v⟩ := p
      simp only at hp h2
      subst hp
      subst h2
      exact List.mem_cons_self _ _
    · rw [if_neg hp] at h
      exact List.mem_cons_of_mem _ (ih h)

theorem lookupState_setState_eq (reg : List (String × PluginState))
    (n : String) (st0 st : PluginState) (h : lookupState reg n = some st0) :
    lookupState (setState reg n st) n = some st := by
  induction reg with
  | nil => simp [lookupState] at h
  | cons p rest ih =>
    simp only [lookupState, setState, beq_iff_eq] at h ⊢
    by_cases hp : p.1 = n
    · simp [hp]
    · simp only [if_neg hp] at h
      simp [hp, ih h, lookupState, beq_iff_eq]

theorem strmk_append (a b : List Char) :
    String.mk a ++ String.mk b = String.mk (a ++ b) := rfl

theorem strmk_data (s : String) : String.mk s.data = s := rfl

theorem singleton_eq_mk (c : Char) : String.singleton c = String.mk [c] := rfl

theorem splitCore_no_delim (l : List Char)
    (h : ∀ c ∈ l, isOptDelim c = false) :
    splitCore l = [String.mk l] := by
  induction l with
  | nil => rfl
  | cons c cs ih =>
    have hc := h c (by simp)
    have ihr := ih (fun x hx => h x (by simp [hx]))
    simp [splitCore, hc, ihr, singleton_eq_mk, strmk_append]

theorem splitCore_delim_split (l1 : List Char) (c : Char) (l2 : List Char)
    (h1 : ∀ x ∈ l1, isOptDelim x = false) (hc : isOptDelim c = true) :
    splitCore (l1 ++ c :: l2) = String.mk l1 :: splitCore l2 := by
  induction l1 with
  | nil => simp [splitCore, hc]
  | cons x xs ih =>
    have hx := h1 x (by simp)
    have ihr := ih (fun y hy => h1 y (by simp [hy]))
    simp [splitCore, hx, ihr, singleton_eq_mk, strmk_append]

theorem splitNames_token_pair (a b : String) (c : Char)
    (ha : ∀ x ∈ a.data, isOptDelim x = false)
    (hb : ∀ x ∈ b.data, isOptDelim x = false)
    (hc : isOptDelim c = true) :
    splitNames (a ++ String.singleton c ++ b) = [a, b] := by
  have hdata : (a ++ String.singleton c ++ b).data = a.data ++ c :: b.data := by
    rw [String.data_append, String.data_append]
    simp [singleton_eq_mk]
  rw [splitNames, hdata, splitCore_delim_split a.data c b.data ha hc,
    splitCore_no_delim b.data hb, strmk_data, strmk_data]

theorem splitNames_single (a : String)
    (ha : ∀ x ∈ a.data, isOptDelim x = false) :
    splitNames a = [a] := by
  rw [splitNames, splitCore_no_delim a.data ha, strmk_data]

theorem autostartLoop_skip (th : String → Bool) (auto : List String)
    (s : AppState)
    (h : ∀ n ∈ auto, ¬ lookupState s.plugins n = some PluginState.registered) :
    autostartLoop th auto s = ([], s, none) := by
  induction auto with
  | nil => rfl
  | cons n rest ih =>
    have hn := h n (by simp)
    simp only [autostartLoop, beq_iff_eq, if_neg hn]
    exact ih (fun q hq => h q (by simp [hq]))

theorem initNamesLoop_pair (th : String → Bool) (a b : String) (s : AppState)
    (hab : a ≠ b)
    (hra : lookupState s.plugins a = some PluginState.registered)
    (hrb : lookupState s.plugins b = some PluginState.registered)
    (hta : th a = false) (htb : th b = false) :
    initNamesLoop th [a, b] s =
      ([Event.initHook a, Event.initHook b],
       ⟨setState (setState s.plugins a PluginState.initialized) b
          PluginState.initialized,
        s.initialized_plugins ++ [a, b], s.running_plugins⟩, none) := by
  have hrb1 : lookupState (setState s.plugins a PluginState.initialized) b =
      some PluginState.registered := by
    rw [lookupState_setState_ne _ _ _ _ (Ne.symm hab)]; exact hrb
  simp [initNamesLoop, application.get_plugin, application.find_plugin,
    plugin.initialize, hra, hrb1, hta, htb, List.append_assoc]

/-- Claim C10: for every name not present in the registry,
application::find_plugin returns a null pointer (none) and never throws
(find_plugin is a total function), while application::get_plugin throws the
runtime error "unable to find plugin: name" for exactly those names and
returns the registered plugin for every present name. -/
theorem find_get_plugin_spec (s : AppState) (name : String) :
    (name ∉ s.plugins.map Prod.fst →
        application.find_plugin s name = none ∧
        application.get_plugin s name =
          Except.error ("unable to find plugin: " ++ name)) ∧
    (name ∈ s.plugins.map Prod.fst →
        ∃ st, application.find_plugin s name = some st ∧
          application.get_plugin s name = Except.ok st ∧
          (name, st) ∈ s.plugins) := by
  constructor
  · intro h
    have h0 : lookupState s.plugins name = none :=
      (lookupState_eq_none_iff _ _).mpr h
    exact ⟨h0, by simp [application.get_plugin, application.find_plugin, h0]⟩
  · intro h
    cases hfind : lookupState s.plugins name with
    | none => exact absurd h ((lookupState_eq_none_iff _ _).mp hfind)
    | some st =>
      exact ⟨st, hfind,
        by simp [application.get_plugin, application.find_plugin, hfind],
        lookupState_mem _ _ _ hfind⟩

theorem find_get_plugin_spec_witness :
    (application.find_plugin ⟨[("A", PluginState.registered)], [], []⟩ "B" =
        none ∧
     application.get_plugin ⟨[("A", PluginState.registered)], [], []⟩ "B" =
        Except.error ("unable to find plugin: " ++ "B")) ∧
    (∃ st,
      application.find_plugin ⟨[("A", PluginState.registered)], [], []⟩ "A" =
          some st ∧
      application.get_plugin ⟨[("A", PluginState.registered)], [], []⟩ "A" =
          Except.ok st ∧
      ("A", st) ∈ [("A", PluginState.registered)]) := by
  constructor
  · exact
      (find_get_plugin_spec ⟨[("A", PluginState.registered)], [], []⟩ "B").1
        (by decide)
  · exact
      (find_get_plugin_spec ⟨[("A", PluginState.registered)], [], []⟩ "A").2
        (by decide)

/-- Claim C7: every value of the composing --plugin option is split on
spaces, tabs and commas (a single delimiter between two delimiter-free
names yields exactly those names); each resulting name is looked up in the
registry (an unknown name raises PluginNotFoundError) and initialized,
while autostart plugins are initialized only when still registered, so an
argument naming A and B activates exactly A then B, each initialized exactly
once even if both also appear in the autostart list. -/
theorem plugin_option_activation (a b : String) (c : Char)
    (auto : List String) (s : AppState) (th : String → Bool)
    (hc : isOptDelim c = true)
    (ha : ∀ x ∈ a.data, isOptDelim x = false)
    (hb : ∀ x ∈ b.data, isOptDelim x = false)
    (hab : a ≠ b)
    (hra : lookupState s.plugins a = some PluginState.registered)
    (hrb : lookupState s.plugins b = some PluginState.registered)
    (hta : th a = false) (htb : th b = false)
    (hauto : ∀ x ∈ auto, x = a ∨ x = b) :
    initializePlugins th (some [a ++ String.singleton c ++ b]) auto s =
      InitOutcome.proceeded [Event.initHook a, Event.initHook b]
        ⟨setState (setState s.plugins a PluginState.initialized) b
           PluginState.initialized,
         s.initialized_plugins ++ [a, b], s.running_plugins⟩ ∧
    (∀ u : String, (∀ x ∈ u.data, isOptDelim x = false) →
      lookupState s.plugins u = none →
      initializePlugins th (some [u]) auto s =
        InitOutcome.raised [] (AppError.pluginNotFound u)) := by
  have harg := splitNames_token_pair a b c ha hb hc
  have hpair := initNamesLoop_pair th a b s hab hra hrb hta htb
  have hskipa :
      lookupState (setState (setState s.plugins a PluginState.initialized) b
        PluginState.initialized) a = some PluginState.initialized := by
    rw [lookupState_setState_ne _ _ _ _ hab]
    exact lookupState_setState_eq _ _ _ _ hra
  have hskipb :
      lookupState (setState (setState s.plugins a PluginState.initialized) b
        PluginState.initialized) b = some PluginState.initialized := by
    apply lookupState_setState_eq
    rw [lookupState_setState_ne _ _ _ _ (Ne.symm hab)]
    exact hrb
  have hskip := autostartLoop_skip th auto
    ⟨setState (setState s.plugins a PluginState.initialized) b
       PluginState.initialized,
     s.initialized_plugins ++ [a, b], s.running_plugins⟩
    (by
      intro n hn heq
      rcases hauto n hn with h1 | h1
      · subst h1
        rw [hskipa] at heq
        simp at heq
      · subst h1
        rw [hskipb] at heq
        simp at heq)
  constructor
  · simp [initializePlugins, pluginArgsLoop, harg, hpair, hskip]
  · intro u hu hnone
    have husplit := splitNames_single u hu
    simp [initializePlugins, pluginArgsLoop, husplit, initNamesLoop,
      application.get_plugin, application.find_plugin, hnone]

theorem plugin_option_activation_witness :
    initializePlugins (fun _ => false) (some ["A,B"]) ["A", "B"]
        ⟨[("A", PluginState.registered), ("B", PluginState.registered)],
         [], []⟩ =
      InitOutcome.proceeded [Event.initHook "A", Event.initHook "B"]
        ⟨[("A", PluginState.initialized), ("B", PluginState.initialized)],
         ["A", "B"], []⟩ ∧
    initializePlugins (fun _ => false) (some ["A B"]) ["A", "B"]
        ⟨[("A", PluginState.registered), ("B", PluginState.registered)],
         [], []⟩ =
      InitOutcome.proceeded [Event.initHook "A", Event.initHook "B"]
        ⟨[("A", PluginState.initialized), ("B", PluginState.initialized)],
         ["A", "B"], []⟩ ∧
    initializePlugins (fun _ => false) (some ["C"]) ["A", "B"]
        ⟨[("A", PluginState.registered), ("B", PluginState.registered)],
         [], []⟩ =
      InitOutcome.raised [] (AppError.pluginNotFound "C") := by
  have h1 := plugin_option_activation "A" "B" ',' ["A", "B"]
    ⟨[("A", PluginState.registered), ("B", PluginState.registered)], [], []⟩
    (fun _ => false) (by decide) (by decide) (by decide) (by decide)
    (by decide) (by decide) rfl rfl (by decide)
  have h2 := plugin_option_activation "A" "B" ' ' ["A", "B"]
    ⟨[("A", PluginState.registered), ("B", PluginState.registered)], [], []⟩
    (fun _ => false) (by decide) (by decide) (by decide) (by decide)
    (by decide) (by decide) rfl rfl (by decide)
  refine ⟨?_, ?_, ?_⟩
  · have e : ("A" ++ String.singleton ',' ++ "B" : String) = "A,B" := by decide
    rw [e] at h1
    exact h1.1.trans (by decide)
  · have e : ("A" ++ String.singleton ' ' ++ "B" : String) = "A B" := by decide
    rw [e] at h2
    exact h2.1.trans (by decide)
  · exact h1.2 "C" (by decide) (by decide)

/-- Claim C6 as stated is false on the code: for a plugin present only in the
autostart list whose initialize hook raises, initialize_impl catches the
exception in the try/catch around the autostart loop (src/application.cpp
lines 252-261), prints "Failed to initialize" and returns false, so no
exception propagates out of the controller. -/
theorem init_exception_autostart_swallowed :
    initializePlugins (fun _ => true) none ["A"]
        ⟨[("A", PluginState.registered)], [], []⟩ =
      InitOutcome.failedInit [Event.initHook "A"]
        ⟨[("A", PluginState.registered)], [], []⟩ ∧
    (initializePlugins (fun _ => true) none ["A"]
        ⟨[("A", PluginState.registered)], [], []⟩).isRaised = false := by
  decide

/-- Claim C6 (amended): an exception raised by the initialize hook of a
plugin requested via --plugin propagates out of initialize_impl, but an
exception raised by an autostart plugin's initialize hook is caught by the
try/catch around the autostart loop: initialize_impl reports the failure and
returns false (do-not-continue) instead of re-raising it to the host. -/
theorem init_exception_propagation (th : String → Bool) (s : AppState)
    (n : String) (auto : List String)
    (hn : ∀ x ∈ n.data, isOptDelim x = false)
    (hreg : lookupState s.plugins n = some PluginState.registered)
    (hth : th n = true) :
    initializePlugins th (some [n]) auto s =
      InitOutcome.raised [Event.initHook n] (AppError.initHookError n) ∧
    initializePlugins th none (n :: auto) s =
      InitOutcome.failedInit [Event.initHook n] s := by
  constructor
  · have husplit := splitNames_single n hn
    simp [initializePlugins, pluginArgsLoop, husplit, initNamesLoop,
      application.get_plugin, application.find_plugin, hreg,
      plugin.initialize, hth]
  · simp [initializePlugins, autostartLoop, hreg, plugin.initialize, hth]

theorem init_exception_propagation_witness :
    initializePlugins (fun _ => true) (some ["A"]) []
        ⟨[("A", PluginState.registered)], [], []⟩ =
      InitOutcome.raised [Event.initHook "A"] (AppError.initHookError "A") ∧
    initializePlugins (fun _ => true) none ["A"]
        ⟨[("A", PluginState.registered)], [], []⟩ =
      InitOutcome.failedInit [Event.initHook "A"]
        ⟨[("A", PluginState.registered)], [], []⟩ :=
  init_exception_propagation (fun _ => true)
    ⟨[("A", PluginState.registered)], [], []⟩ "A" []
    (by decide) (by decide) rfl

/-
  Configuration model: option schema, boost::program_options value
  semantics, the command-line/config-file merge, the redundant-default
  check, and the default-config template.
-/

deriving instance DecidableEq for Except

/-- The runtime type of an option value (std::type_index of the boost::any
held by the option's semantic).  The fixed semantic types of the schema are
the eight listed in spec section 3; tOther stands for any other runtime type
a plugin may use. -/
inductive VType
  | tString
  | tBool
  | tUInt32
  | tUInt64
  | tInt
  | tDouble
  | tVecString
  | tPath
  | tOther (tag : String)
deriving DecidableEq, Repr

/-- A typed option value (the contents of a boost::any produced by an
option's semantic).  Doubles are modelled by rationals (the decimal literals
the config grammar produces are exact); paths and unregistered types carry
their textual payload. -/
inductive CfgValue
  | vString (s : String)
  | vBool (b : Bool)
  | vUInt32 (n : Nat)
  | vUInt64 (n : Nat)
  | vInt (n : Int)
  | vDouble (q : Rat)
  | vVecString (l : List String)
  | vPath (p : String)
  | vOther (tag : String) (payload : String)
deriving DecidableEq, Repr

/-- The runtime type (boost::any::type) of a value. -/
def CfgValue.typeOf : CfgValue → VType
  | CfgValue.vString _ => VType.tString
  | CfgValue.vBool _ => VType.tBool
  | CfgValue.vUInt32 _ => VType.tUInt32
  | CfgValue.vUInt64 _ => VType.tUInt64
  | CfgValue.vInt _ => VType.tInt
  | CfgValue.vDouble _ => VType.tDouble
  | CfgValue.vVecString _ => VType.tVecString
  | CfgValue.vPath _ => VType.tPath
  | CfgValue.vOther tag _ => VType.tOther tag

def parseNatTok (t : String) : Option Nat :=
  if t.length > 0 && t.data.all (fun c => c.isDigit) then
    some (t.data.foldl (fun acc c => acc * 10 + (c.toNat - 48)) 0)
  else none

def parseIntTok (t : String) : Option Int :=
  if t.startsWith "-" then
    (parseNatTok (t.drop 1)).map (fun n => -(n : Int))
  else (parseNatTok t).map (fun n => (n : Int))

/-- The boolean validator of boost::program_options. -/
def parseBoolTok (t : String) : Option Bool :=
  if t == "true" || t == "on" || t == "yes" || t == "1" then some true
  else if t == "false" || t == "off" || t == "no" || t == "0" then some false
  else none

/-- Decimal literals for double-typed options, modelled exactly. -/
def parseRatTok (t : String) : Option Rat :=
  match t.splitOn "." with
  | [w] => (parseIntTok w).map (fun i => (i : Rat))
  | [w, fpart] =>
    match parseIntTok w, parseNatTok fpart with
    | some i, some f =>
      let den : Nat := 10 ^ fpart.length
      let sign : Int := if t.startsWith "-" then -1 else 1
      some ((i : Rat) + ((sign : Rat) * (f : Rat)) / (den : Rat))
    | _, _ => none
  | _ => none

/-- The semantic parse of an option (bpo typed_value::parse applied to the
raw tokens of one occurrence): convert the token list to a typed value of
the option's declared type, failing (an exception in the C++) on malformed
input. -/
def parseValue : VType → List String → Option CfgValue
  | VType.tString, [t] => some (CfgValue.vString t)
  | VType.tBool, [t] => (parseBoolTok t).map CfgValue.vBool
  | VType.tUInt32, [t] =>
    (parseNatTok t).bind
      (fun n => if n < 2 ^ 32 then some (CfgValue.vUInt32 n) else none)
  | VType.tUInt64, [t] =>
    (parseNatTok t).bind
      (fun n => if n < 2 ^ 64 then some (CfgValue.vUInt64 n) else none)
  | VType.tInt, [t] => (parseIntTok t).map CfgValue.vInt
  | VType.tDouble, [t] => (parseRatTok t).map CfgValue.vDouble
  | VType.tVecString, ts => some (CfgValue.vVecString ts)
  | VType.tPath, [t] => some (CfgValue.vPath t)
  | VType.tOther tag, [t] => some (CfgValue.vOther tag t)
  | _, _ => none

/-- The eight runtime types for which application_impl's constructor calls
register_any_type (src/application.cpp lines 24-33). -/
def registeredTypes : List VType :=
  [VType.tString, VType.tBool, VType.tUInt32, VType.tUInt64, VType.tInt,
   VType.tDouble, VType.tVecString, VType.tPath]

/-- application_impl::_any_compare_map (src/application.cpp lines 20, 44-51):
a lookup keyed by runtime type holding, for each registered type, the
equality comparison of two boost::any values of that type; absent for any
other type (map::at then throws std::out_of_range). -/
def any_compare_map (t : VType) : Option (CfgValue → CfgValue → Bool) :=
  if registeredTypes.contains t then some (fun a b => a == b) else none

/-- One option of the merged schema (bpo::option_description): long name,
value type, optional default (apply_default), the default's textual form as
shown by format_parameter, and the description text. -/
structure OptionDesc where
  long_name : String
  vtype : VType
  defaultVal : Option CfgValue
  defaultText : Option String
  description : String
deriving DecidableEq, Repr

/-- One parsed occurrence of an option (bpo::basic_option): the long-name
key and the raw value tokens. -/
structure ParsedOpt where
  string_key : String
  value : List String
deriving DecidableEq, Repr

/-- An entry of bpo::variables_map: the stored value and whether it came
from a default (a defaulted entry may still be overwritten by a later
store; a non-defaulted entry is final). -/
structure VarEntry where
  value : CfgValue
  defaulted : Bool
deriving DecidableEq, Repr

/-- The variables_map itself, keyed by long option name. -/
abbrev VarMap := List (String × VarEntry)

def vmLookup : VarMap → String → Option VarEntry
  | [], _ => none
  | p :: rest, k => if p.1 == k then some p.2 else vmLookup rest k

/-- A name is final in the map when a non-defaulted value is stored for it:
bpo::store never overwrites such an entry. -/
def vmIsFinal (vm : VarMap) (k : String) : Bool :=
  match vmLookup vm k with
  | some e => !e.defaulted
  | none => false

def vmInsert : VarMap → String → VarEntry → VarMap
  | [], k, e => [(k, e)]
  | p :: rest, k, e =>
    if p.1 == k then (p.1, e) :: rest else p :: vmInsert rest k e

/-- The first phase of bpo::store: record each given occurrence, by option
order, skipping keys already final; an occurrence of an option unknown to
the schema, or whose tokens fail the semantic parse, raises (the composing
accumulation used only by the "plugin" option is not modelled here; the
plugin list reaches initializePlugins directly). -/
def storeGiven (schema : List OptionDesc) :
    List ParsedOpt → VarMap → Except String VarMap
  | [], vm => Except.ok vm
  | o :: rest, vm =>
    match schema.find? (fun od => od.long_name == o.string_key) with
    | none => Except.error ("unrecognised option " ++ o.string_key)
    | some od =>
      match parseValue od.vtype o.value with
      | none => Except.error ("invalid option value for " ++ o.string_key)
      | some v =>
        storeGiven schema rest
          (if vmIsFinal vm o.string_key then vm
           else vmInsert vm o.string_key ⟨v, false⟩)

/-- The second phase of bpo::store: for every schema option that declares a
default and has no entry yet, record the default with the defaulted flag
set. -/
def applyDefaults : List OptionDesc → VarMap → VarMap
  | [], vm => vm
  | od :: rest, vm =>
    applyDefaults rest
      (match vmLookup vm od.long_name, od.defaultVal with
       | none, some d => vm ++ [(od.long_name, ⟨d, true⟩)]
       | _, _ => vm)

/-- bpo::store(parsed, vm): record given values, then defaults. -/
def store (schema : List OptionDesc) (parsed : List ParsedOpt) (vm : VarMap) :
    Except String VarMap :=
  match storeGiven schema parsed vm with
  | Except.error e => Except.error e
  | Except.ok vm1 => Except.ok (applyDefaults schema vm1)

/-- The two store calls of application::initialize_impl: line 139 stores the
parsed command line against the full schema into an empty map, line 197 then
stores the parsed config file against the config sub-schema into the same
map. -/
def resolveOptions (appSchema cfgSchema : List OptionDesc)
    (cli file : List ParsedOpt) : Except String VarMap :=
  match store appSchema cli [] with
  | Except.error e => Except.error e
  | Except.ok vm1 => store cfgSchema file vm1

/-- The redundant-default scan of application::initialize_impl
(src/application.cpp lines 199-221): for every config-schema option with a
default, find the first config-file occurrence of its long name, re-parse
its tokens, and compare against the default with the comparator registered
for the default's runtime type; equal values push the long name onto the
redundant list, a missing comparator prints its own warning (second
component) instead, and a failing semantic parse raises.  Returns
(set_but_default_list, unregistered-type warnings). -/
def redundancyLoop :
    List OptionDesc → List ParsedOpt → Except String (List String × List String)
  | [], _ => Except.ok ([], [])
  | od :: rest, opts =>
    match od.defaultVal with
    | none => redundancyLoop rest opts
    | some dv =>
      match opts.find? (fun o => o.string_key == od.long_name) with
      | none => redundancyLoop rest opts
      | some opt =>
        match parseValue od.vtype opt.value with
        | none => Except.error od.long_name
        | some cv =>
          match any_compare_map dv.typeOf with
          | some cmp =>
            match redundancyLoop rest opts with
            | Except.error e => Except.error e
            | Except.ok (l, w) =>
              Except.ok ((if cmp dv cv then od.long_name :: l else l), w)
          | none =>
            match redundancyLoop rest opts with
            | Except.error e => Except.error e
            | Except.ok (l, w) => Except.ok (l, od.long_name :: w)

/-- Append a suffix to the last line of a block (the owning-plugin
annotation is printed on the same output line as the last description
line). -/
def annotateLast (annot : String) : List String → List String
  | [] => []
  | [l] => [l ++ annot]
  | l :: ls => l :: annotateLast annot ls

/-- The description block of one rendered option
(src/application.cpp lines 331-339): the description with every newline
re-prefixed by "# ", the last line annotated with the owning plugin's name
when known; nothing when the description is empty. -/
def renderDescLines (option_to_plug : List (String × String))
    (od : OptionDesc) : List String :=
  if od.description == "" then []
  else
    let ls := (od.description.splitOn "\n").map (fun l => "# " ++ l)
    match option_to_plug.find? (fun p => p.1 == od.long_name) with
    | some pr => annotateLast (" (" ++ pr.2 ++ ")") ls
    | none => ls

/-- The commented value line of one rendered option
(src/application.cpp lines 340-356): blank value when the option has no
default; "false" for an argument-less boolean switch (empty
format_parameter); "true"/"false" for a bool default; otherwise the default
text extracted from format_parameter's "arg (=X)" form. -/
def renderValueLine (od : OptionDesc) : String :=
  match od.defaultVal with
  | none => "# " ++ od.long_name ++ " = "
  | some dv =>
    match od.defaultText with
    | none => "# " ++ od.long_name ++ " = false"
    | some txt =>
      if dv.typeOf == VType.tBool then
        "# " ++ od.long_name ++ " = "
          ++ (match dv with
              | CfgValue.vBool true => "true"
              | _ => "false")
      else "# " ++ od.long_name ++ " = " ++ txt

/-- One rendered option block: description lines, the value line, and the
trailing blank line. -/
def renderOption (option_to_plug : List (String × String))
    (od : OptionDesc) : List String :=
  renderDescLines option_to_plug od ++ [renderValueLine od, ""]

/-- application::print_default_config (src/application.cpp lines 318-359)
as the list of emitted lines, one block per option of the merged config
schema. -/
def print_default_config (option_to_plug : List (String × String))
    (cfg_options : List OptionDesc) : List String :=
  (cfg_options.map (renderOption option_to_plug)).flatten

def isCfgWS (c : Char) : Bool := c == ' ' || c == '\t' || c == '\r'

def trimChars (l : List Char) : List Char :=
  ((l.dropWhile isCfgWS).reverse.dropWhile isCfgWS).reverse

/-- Break a character list at the first '=' sign. -/
def splitAtEq (acc : List Char) : List Char → Option (List Char × List Char)
  | [] => none
  | c :: cs => if c == '=' then some (acc.reverse, cs) else splitAtEq (c :: acc) cs

/-- Modelled from the spec: the line grammar of the config file is parsed by
boost::program_options::parse_config_file, outside this repository.  Spec
section 6: line-oriented key = value pairs, '#'-prefixed comments; blank
lines carry nothing. -/
def parseConfigLine (line : String) : Option ParsedOpt :=
  match trimChars line.data with
  | [] => none
  | c :: rest =>
    if c == '#' then none
    else
      match splitAtEq [] (c :: rest) with
      | none => none
      | some (k, v) =>
        some ⟨String.mk (trimChars k), [String.mk (trimChars v)]⟩

def parseConfigLines (lines : List String) : List ParsedOpt :=
  lines.filterMap parseConfigLine

/-- A boost::filesystem::path, abstracted to whether it is absolute and its
component list. -/
structure Path where
  isAbs : Bool
  comps : List String
deriving DecidableEq, Repr

def Path.isRelativePath (p : Path) : Bool := !p.isAbs

/-- operator/ on paths (appending a relative path). -/
def Path.child (p q : Path) : Path := ⟨p.isAbs, p.comps ++ q.comps⟩

/-- Cut a character list at every '/' (the component separator). -/
def splitSlashCore : List Char → List String
  | [] => [""]
  | c :: cs =>
    if c == '/' then "" :: splitSlashCore cs
    else
      match splitSlashCore cs with
      | [] => [String.singleton c]
      | t :: ts => (String.singleton c ++ t) :: ts

/-- Convert an option's textual value to a path: absolute iff it starts
with '/', with the non-empty slash-separated components. -/
def pathOfString (s : String) : Path :=
  ⟨(match s.data with | '/' :: _ => true | _ => false),
   (splitSlashCore s.data).filter (fun c => c != "")⟩

/-- The resolution of the --config value (src/application.cpp lines
182-185): a relative name is resolved against the config directory. -/
def resolveConfigPath (config_dir : Path) (configOptVal : String) : Path :=
  let p := pathOfString configOptVal
  if p.isRelativePath then config_dir.child p else p

/-- Outcome of the config-file existence check. -/
inductive ConfigFileOutcome
  | proceedExisting (p : Path)
  | writeDefaultAndProceed (p : Path)
  | missingError (p : Path)
deriving DecidableEq, Repr

/-- The config-file existence branch of application::initialize_impl
(src/application.cpp lines 187-194): when the resolved config file does not
exist, a path differing from config_dir/"config.ini" is reported missing and
initialize_impl returns false, while the default path has
write_default_config render the template to it and initialization
proceeds. -/
def checkConfigFile (fsExists : Path → Bool) (config_dir : Path)
    (configOptVal : String) : ConfigFileOutcome :=
  let cfn := resolveConfigPath config_dir configOptVal
  if fsExists cfn then ConfigFileOutcome.proceedExisting cfn
  else if cfn ≠ config_dir.child (pathOfString "config.ini") then
    ConfigFileOutcome.missingError cfn
  else ConfigFileOutcome.writeDefaultAndProceed cfn

/-- Claim C5: during initialization, when the resolved config file path does
not exist, the default name (config.ini resolved against the config
directory) has the default-config template written to it and initialization
proceeds, while any other resolved path is reported missing and
initialize_impl returns a do-not-continue result without generating
anything. -/
theorem config_file_missing_behaviour (fsExists : Path → Bool)
    (config_dir : Path) :
    (fsExists (config_dir.child (pathOfString "config.ini")) = false →
      checkConfigFile fsExists config_dir "config.ini" =
        ConfigFileOutcome.writeDefaultAndProceed
          (config_dir.child (pathOfString "config.ini"))) ∧
    (∀ name : String,
      fsExists (resolveConfigPath config_dir name) = false →
      resolveConfigPath config_dir name ≠
        config_dir.child (pathOfString "config.ini") →
      checkConfigFile fsExists config_dir name =
        ConfigFileOutcome.missingError (resolveConfigPath config_dir name)) := by
  constructor
  · intro h
    have hrel : (pathOfString "config.ini").isRelativePath = true := by decide
    have hres : resolveConfigPath config_dir "config.ini" =
        config_dir.child (pathOfString "config.ini") := by
      simp [resolveConfigPath, hrel]
    simp [checkConfigFile, hres, h]
  · intro name h hne
    simp [checkConfigFile, h, hne]

theorem config_file_missing_behaviour_witness :
    checkConfigFile (fun _ => false) ⟨true, ["etc"]⟩ "config.ini" =
      ConfigFileOutcome.writeDefaultAndProceed ⟨true, ["etc", "config.ini"]⟩ ∧
    checkConfigFile (fun _ => false) ⟨true, ["etc"]⟩ "custom.ini" =
      ConfigFileOutcome.missingError ⟨true, ["etc", "custom.ini"]⟩ := by
  constructor
  · have h := (config_file_missing_behaviour (fun _ => false)
      ⟨true, ["etc"]⟩).1 rfl
    exact h.trans (by decide)
  · have h := (config_file_missing_behaviour (fun _ => false)
      ⟨true, ["etc"]⟩).2 "custom.ini" rfl (by decide)
    exact h.trans (by decide)

theorem redundancyLoop_append_ok (l1 l2 : List OptionDesc)
    (opts : List ParsedOpt) (a b c d : List String)
    (h1 : redundancyLoop l1 opts = Except.ok (a, b))
    (h2 : redundancyLoop l2 opts = Except.ok (c, d)) :
    redundancyLoop (l1 ++ l2) opts = Except.ok (a ++ c, b ++ d) := by
  induction l1 generalizing a b with
  | nil =>
    simp only [redundancyLoop] at h1
    injection h1 with h1
    injection h1 with ha hb
    subst ha
    subst hb
    simpa using h2
  | cons od rest ih =>
    cases hdv : od.defaultVal with
    | none =>
      simp only [redundancyLoop, hdv, List.cons_append] at h1 ⊢
      exact ih _ _ h1
    | some dv =>
      cases hfind : opts.find? (fun o => o.string_key == od.long_name) with
      | none =>
        simp only [redundancyLoop, hdv, hfind, List.cons_append] at h1 ⊢
        exact ih _ _ h1
      | some opt =>
        cases hpv : parseValue od.vtype opt.value with
        | none =>
          simp only [redundancyLoop, hdv, hfind, hpv, List.cons_append] at h1
          cases h1
        | some cv =>
          cases hcmp : any_compare_map dv.typeOf with
          | some cmp =>
            cases hrec : redundancyLoop rest opts with
            | error e =>
              simp only [redundancyLoop, hdv, hfind, hpv, hcmp, hrec,
                List.cons_append] at h1
              cases h1
            | ok pr =>
              obtain ⟨l, w⟩ := pr
              simp only [redundancyLoop, hdv, hfind, hpv, hcmp, hrec,
                List.cons_append] at h1
              injection h1 with h1
              injection h1 with ha hb
              subst hb
              rw [← ha]
              simp only [redundancyLoop, hdv, hfind, hpv, hcmp,
                List.cons_append, List.append_eq]
              rw [ih _ _ hrec]
              by_cases hc : cmp dv cv
              · simp [hc]
              · simp [hc]
          | none =>
            cases hrec : redundancyLoop rest opts with
            | error e =>
              simp only [redundancyLoop, hdv, hfind, hpv, hcmp, hrec,
                List.cons_append] at h1
              cases h1
            | ok pr =>
              obtain ⟨l, w⟩ := pr
              simp only [redundancyLoop, hdv, hfind, hpv, hcmp, hrec,
                List.cons_append] at h1
              injection h1 with h1
              injection h1 with ha hb
              subst ha
              rw [← hb]
              simp only [redundancyLoop, hdv, hfind, hpv, hcmp,
                List.cons_append, List.append_eq]
              rw [ih _ _ hrec]

theorem redundancyLoop_single_registered (od : OptionDesc)
    (opts : List ParsedOpt) (dv cv : CfgValue) (opt : ParsedOpt)
    (hdv : od.defaultVal = some dv)
    (hfind : opts.find? (fun o => o.string_key == od.long_name) = some opt)
    (hpv : parseValue od.vtype opt.value = some cv)
    (hreg : registeredTypes.contains dv.typeOf = true) :
    redundancyLoop [od] opts =
      Except.ok ((if dv == cv then [od.long_name] else []), []) := by
  have hcmp : any_compare_map dv.typeOf = some (fun a b => a == b) := by
    unfold any_compare_map
    rw [hreg]
    simp
  simp only [redundancyLoop, hdv, hfind, hpv, hcmp]

theorem redundancyLoop_single_unregistered (od : OptionDesc)
    (opts : List ParsedOpt) (dv cv : CfgValue) (opt : ParsedOpt)
    (hdv : od.defaultVal = some dv)
    (hfind : opts.find? (fun o => o.string_key == od.long_name) = some opt)
    (hpv : parseValue od.vtype opt.value = some cv)
    (hreg : registeredTypes.contains dv.typeOf = false) :
    redundancyLoop [od] opts = Except.ok ([], [od.long_name]) := by
  have hcmp : any_compare_map dv.typeOf = none := by
    unfold any_compare_map
    rw [hreg]
    simp
  simp [redundancyLoop, hdv, hfind, hpv, hcmp]

/-- Claim C4: for every config-schema option that declares a default, if the
config file supplies a value for that option that compares equal, by the
option's declared semantic type, to the default, the option's long name is
collected into the redundant-default list (the scan completes without error;
the warning afterwards is driven by that list); if the supplied value
differs from the default, the name is not collected. -/
theorem redundant_default_detection (pre post : List OptionDesc)
    (od : OptionDesc) (opts : List ParsedOpt) (dv cv : CfgValue)
    (opt : ParsedOpt) (l1 w1 l2 w2 : List String)
    (hdv : od.defaultVal = some dv)
    (hfind : opts.find? (fun o => o.string_key == od.long_name) = some opt)
    (hpv : parseValue od.vtype opt.value = some cv)
    (hreg : registeredTypes.contains dv.typeOf = true)
    (hpre : redundancyLoop pre opts = Except.ok (l1, w1))
    (hpost : redundancyLoop post opts = Except.ok (l2, w2)) :
    redundancyLoop (pre ++ od :: post) opts =
      Except.ok (l1 ++ (if dv == cv then [od.long_name] else []) ++ l2,
                 w1 ++ w2) ∧
    (od.long_name ∉ l1 → od.long_name ∉ l2 →
      (od.long_name ∈ l1 ++ (if dv == cv then [od.long_name] else []) ++ l2
        ↔ dv = cv)) := by
  have hmid :=
    redundancyLoop_single_registered od opts dv cv opt hdv hfind hpv hreg
  have happ1 := redundancyLoop_append_ok [od] post opts _ _ l2 w2 hmid hpost
  have happ2 :=
    redundancyLoop_append_ok pre ([od] ++ post) opts l1 w1 _ _ hpre happ1
  constructor
  · have he : pre ++ od :: post = pre ++ ([od] ++ post) := by simp
    rw [he]
    simpa [List.append_assoc] using happ2
  · intro h1 h2
    by_cases hc : dv == cv
    · have hdc : dv = cv := beq_iff_eq.mp hc
      simp [hc, hdc]
    · have hne : dv ≠ cv := by
        intro e
        rw [e] at hc
        simp at hc
      simp [hc, h1, h2, hne]

theorem redundant_default_detection_witness :
    redundancyLoop
        [⟨"bar", VType.tUInt32, some (CfgValue.vUInt32 10), some "10", ""⟩]
        [⟨"bar", ["10"]⟩] = Except.ok (["bar"], []) ∧
    redundancyLoop
        [⟨"bar", VType.tUInt32, some (CfgValue.vUInt32 10), some "10", ""⟩]
        [⟨"bar", ["20"]⟩] = Except.ok ([], []) := by
  constructor
  · have h := (redundant_default_detection [] []
      ⟨"bar", VType.tUInt32, some (CfgValue.vUInt32 10), some "10", ""⟩
      [⟨"bar", ["10"]⟩] (CfgValue.vUInt32 10) (CfgValue.vUInt32 10)
      ⟨"bar", ["10"]⟩ [] [] [] [] rfl (by decide) (by decide) (by decide)
      rfl rfl).1
    exact h.trans (by decide)
  · have h := (redundant_default_detection [] []
      ⟨"bar", VType.tUInt32, some (CfgValue.vUInt32 10), some "10", ""⟩
      [⟨"bar", ["20"]⟩] (CfgValue.vUInt32 10) (CfgValue.vUInt32 20)
      ⟨"bar", ["20"]⟩ [] [] [] [] rfl (by decide) (by decide) (by decide)
      rfl rfl).1
    exact h.trans (by decide)

/-- Claim C9: when, during the redundant-default check, an option's default
value has a runtime type with no registered equality comparator, the scan
still completes without error (no crash), a separate per-option warning
carrying the option's long name is emitted, and the option is excluded from
the redundancy list; comparators are pre-registered exactly for string,
bool, uint32, uint64, int, double, vector-of-string and filesystem path. -/
theorem unregistered_comparator_warning (pre post : List OptionDesc)
    (od : OptionDesc) (opts : List ParsedOpt) (dv cv : CfgValue)
    (opt : ParsedOpt) (l1 w1 l2 w2 : List String)
    (hdv : od.defaultVal = some dv)
    (hfind : opts.find? (fun o => o.string_key == od.long_name) = some opt)
    (hpv : parseValue od.vtype opt.value = some cv)
    (hreg : registeredTypes.contains dv.typeOf = false)
    (hpre : redundancyLoop pre opts = Except.ok (l1, w1))
    (hpost : redundancyLoop post opts = Except.ok (l2, w2)) :
    redundancyLoop (pre ++ od :: post) opts =
      Except.ok (l1 ++ l2, w1 ++ od.long_name :: w2) ∧
    (od.long_name ∉ l1 → od.long_name ∉ l2 →
      od.long_name ∉ l1 ++ l2) ∧
    registeredTypes.all (fun t => (any_compare_map t).isSome) = true := by
  have hmid :=
    redundancyLoop_single_unregistered od opts dv cv opt hdv hfind hpv hreg
  have happ1 := redundancyLoop_append_ok [od] post opts _ _ l2 w2 hmid hpost
  have happ2 :=
    redundancyLoop_append_ok pre ([od] ++ post) opts l1 w1 _ _ hpre happ1
  refine ⟨?_, ?_, by decide⟩
  · have he : pre ++ od :: post = pre ++ ([od] ++ post) := by simp
    rw [he]
    simpa [List.append_assoc] using happ2
  · intro h1 h2
    simp [h1, h2]

theorem unregistered_comparator_warning_witness :
    redundancyLoop
        [⟨"baz", VType.tOther "custom",
          some (CfgValue.vOther "custom" "x"), some "x", ""⟩]
        [⟨"baz", ["x"]⟩] = Except.ok ([], ["baz"]) ∧
    registeredTypes.all (fun t => (any_compare_map t).isSome) = true := by
  have h := unregistered_comparator_warning [] []
    ⟨"baz", VType.tOther "custom",
      some (CfgValue.vOther "custom" "x"), some "x", ""⟩
    [⟨"baz", ["x"]⟩] (CfgValue.vOther "custom" "x")
    (CfgValue.vOther "custom" "x") ⟨"baz", ["x"]⟩ [] [] [] []
    rfl (by decide) (by decide) (by decide) rfl rfl
  exact ⟨h.1.trans (by decide), h.2.2⟩

theorem vmLookup_vmInsert_eq (vm : VarMap) (k : String) (e : VarEntry) :
    vmLookup (vmInsert vm k e) k = some e := by
  induction vm with
  | nil => simp [vmInsert, vmLookup]
  | cons p rest ih =>
    by_cases hp : p.1 = k
    · simp [vmInsert, vmLookup, beq_iff_eq, hp]
    · simp [vmInsert, vmLookup, beq_iff_eq, hp, ih]

theorem vmLookup_vmInsert_ne (vm : VarMap) (k m : String) (e : VarEntry)
    (h : m ≠ k) : vmLookup (vmInsert vm k e) m = vmLookup vm m := by
  have hkm : ¬ (k = m) := fun e2 => h e2.symm
  induction vm with
  | nil => simp [vmInsert, vmLookup, beq_iff_eq, hkm]
  | cons p rest ih =>
    by_cases hp : p.1 = k
    · simp [vmInsert, vmLookup, beq_iff_eq, hp, hkm]
    · by_cases hm : p.1 = m
      · simp [vmInsert, vmLookup, beq_iff_eq, hp, hm, h]
      · simp [vmInsert, vmLookup, beq_iff_eq, hp, hm, h, ih]

theorem vmLookup_append (vm1 vm2 : VarMap) (k : String) :
    vmLookup (vm1 ++ vm2) k =
      match vmLookup vm1 k with
      | some e => some e
      | none => vmLookup vm2 k := by
  induction vm1 with
  | nil => simp [vmLookup]
  | cons p rest ih =>
    by_cases hp : p.1 = k
    · simp [vmLookup, beq_iff_eq, hp]
    · simp [vmLookup, beq_iff_eq, hp, ih]

theorem storeGiven_preserves_final (schema : List OptionDesc)
    (parsed : List ParsedOpt) (vm vm2 : VarMap) (k : String) (e : VarEntry)
    (hk : vmLookup vm k = some e) (hf : e.defaulted = false)
    (hs : storeGiven schema parsed vm = Except.ok vm2) :
    vmLookup vm2 k = some e := by
  induction parsed generalizing vm with
  | nil =>
    simp only [storeGiven] at hs
    injection hs with hs
    subst hs
    exact hk
  | cons o rest ih =>
    cases hfind : schema.find? (fun od => od.long_name == o.string_key) with
    | none =>
      simp only [storeGiven, hfind] at hs
      cases hs
    | some od =>
      cases hpv : parseValue od.vtype o.value with
      | none =>
        simp only [storeGiven, hfind, hpv] at hs
        cases hs
      | some v =>
        simp only [storeGiven, hfind, hpv] at hs
        by_cases hkey : o.string_key = k
        · have hfin : vmIsFinal vm o.string_key = true := by
            rw [hkey]
            simp [vmIsFinal, hk, hf]
          rw [hfin] at hs
          simp only [if_pos rfl] at hs
          exact ih vm hk hs
        · cases hfin : vmIsFinal vm o.string_key with
          | true =>
            rw [hfin] at hs
            simp only [if_pos rfl] at hs
            exact ih vm hk hs
          | false =>
            rw [hfin] at hs
            simp only [Bool.false_eq_true, if_neg, if_false] at hs
            have hk2 : vmLookup (vmInsert vm o.string_key ⟨v, false⟩) k =
                some e := by
              rw [vmLookup_vmInsert_ne _ _ _ _
                (fun e2 => hkey e2.symm)]
              exact hk
            exact ih _ hk2 hs

theorem storeGiven_no_occurrence (schema : List OptionDesc)
    (parsed : List ParsedOpt) (vm vm2 : VarMap) (k : String)
    (hnone : parsed.find? (fun o => o.string_key == k) = none)
    (hs : storeGiven schema parsed vm = Except.ok vm2) :
    vmLookup vm2 k = vmLookup vm k := by
  induction parsed generalizing vm with
  | nil =>
    simp only [storeGiven] at hs
    injection hs with hs
    subst hs
    rfl
  | cons o rest ih =>
    cases hx : (o.string_key == k) with
    | true =>
      simp only [List.find?, hx] at hnone
      cases hnone
    | false =>
      simp only [List.find?, hx] at hnone
      have hkey : o.string_key ≠ k := by
        intro e2
        rw [e2] at hx
        simp at hx
      cases hfind : schema.find? (fun od => od.long_name == o.string_key) with
      | none =>
        simp only [storeGiven, hfind] at hs
        cases hs
      | some od =>
        cases hpv : parseValue od.vtype o.value with
        | none =>
          simp only [storeGiven, hfind, hpv] at hs
          cases hs
        | some v =>
          simp only [storeGiven, hfind, hpv] at hs
          cases hfin : vmIsFinal vm o.string_key with
          | true =>
            rw [hfin] at hs
            simp only [if_pos rfl] at hs
            exact ih vm hnone hs
          | false =>
            rw [hfin] at hs
            simp only [Bool.false_eq_true, if_neg, if_false] at hs
            rw [ih _ hnone hs]
            exact vmLookup_vmInsert_ne _ _ _ _ (fun e2 => hkey e2.symm)

theorem storeGiven_first_occurrence (schema : List OptionDesc)
    (parsed : List ParsedOpt) (vm vm2 : VarMap) (k : String)
    (od : OptionDesc) (o : ParsedOpt) (v : CfgValue)
    (hfindp : parsed.find? (fun x => x.string_key == k) = some o)
    (hfinds : schema.find? (fun x => x.long_name == k) = some od)
    (hpv : parseValue od.vtype o.value = some v)
    (hfin : vmIsFinal vm k = false)
    (hs : storeGiven schema parsed vm = Except.ok vm2) :
    vmLookup vm2 k = some ⟨v, false⟩ := by
  induction parsed generalizing vm with
  | nil => cases hfindp
  | cons o0 rest ih =>
    cases hx : (o0.string_key == k) with
    | true =>
      have hkeq : o0.string_key = k := beq_iff_eq.mp hx
      simp only [List.find?, hx] at hfindp
      injection hfindp with hfindp
      subst hfindp
      simp only [storeGiven, hkeq, hfinds, hpv] at hs
      rw [hfin] at hs
      simp only [Bool.false_eq_true, if_neg, if_false] at hs
      have hk2 : vmLookup (vmInsert vm k ⟨v, false⟩) k = some ⟨v, false⟩ :=
        vmLookup_vmInsert_eq vm k ⟨v, false⟩
      exact storeGiven_preserves_final schema rest _ vm2 k ⟨v, false⟩ hk2 rfl hs
    | false =>
      have hkey : o0.string_key ≠ k := by
        intro e2
        rw [e2] at hx
        simp at hx
      simp only [List.find?, hx] at hfindp
      cases hfind : schema.find? (fun x => x.long_name == o0.string_key) with
      | none =>
        simp only [storeGiven, hfind] at hs
        cases hs
      | some od0 =>
        cases hpv0 : parseValue od0.vtype o0.value with
        | none =>
          simp only [storeGiven, hfind, hpv0] at hs
          cases hs
        | some v0 =>
          simp only [storeGiven, hfind, hpv0] at hs
          cases hfin0 : vmIsFinal vm o0.string_key with
          | true =>
            rw [hfin0] at hs
            simp only [if_pos rfl] at hs
            exact ih vm hfindp hfin hs
          | false =>
            rw [hfin0] at hs
            simp only [Bool.false_eq_true, if_neg, if_false] at hs
            have hfin2 :
                vmIsFinal (vmInsert vm o0.string_key ⟨v0, false⟩) k = false := by
              unfold vmIsFinal
              rw [vmLookup_vmInsert_ne _ _ _ _ (fun e2 => hkey e2.symm)]
              unfold vmIsFinal at hfin
              exact hfin
            exact ih _ hfindp hfin2 hs

theorem applyDefaults_preserves (schema : List OptionDesc) (vm : VarMap)
    (k : String) (e : VarEntry) (h : vmLookup vm k = some e) :
    vmLookup (applyDefaults schema vm) k = some e := by
  induction schema generalizing vm with
  | nil => exact h
  | cons od rest ih =>
    simp only [applyDefaults]
    cases hl : vmLookup vm od.long_name with
    | some e0 => cases hdv : od.defaultVal <;> exact ih vm h
    | none =>
      cases hdv : od.defaultVal with
      | none => exact ih vm h
      | some d =>
        apply ih
        rw [vmLookup_append]
        rw [h]

theorem applyDefaults_default (schema : List OptionDesc) (vm : VarMap)
    (k : String) (od : OptionDesc) (d : CfgValue)
    (hnone : vmLookup vm k = none)
    (hfind : schema.find? (fun o => o.long_name == k) = some od)
    (hd : od.defaultVal = some d) :
    vmLookup (applyDefaults schema vm) k = some ⟨d, true⟩ := by
  induction schema generalizing vm with
  | nil => cases hfind
  | cons od0 rest ih =>
    cases hx : (od0.long_name == k) with
    | true =>
      have hkeq : od0.long_name = k := beq_iff_eq.mp hx
      simp only [List.find?, hx] at hfind
      injection hfind with hfind
      subst hfind
      simp only [applyDefaults, hkeq, hnone, hd]
      apply applyDefaults_preserves
      rw [vmLookup_append, hnone]
      simp [vmLookup]
    | false =>
      have hkey : od0.long_name ≠ k := by
        intro e2
        rw [e2] at hx
        simp at hx
      simp only [List.find?, hx] at hfind
      simp only [applyDefaults]
      cases hl : vmLookup vm od0.long_name with
      | some e0 =>
        cases hdv0 : od0.defaultVal with
        | none => exact ih vm hnone hfind
        | some d0 => exact ih vm hnone hfind
      | none =>
        cases hdv0 : od0.defaultVal with
        | none => exact ih vm hnone hfind
        | some d0 =>
          apply ih _ ?_ hfind
          rw [vmLookup_append, hnone]
          simp [vmLookup, beq_iff_eq, hkey]

/-- Claim C3: the resolved value of every option is produced by merging in
ascending priority schema defaults, config-file values and command-line
values: a command-line value always wins over a config-file value for the
same option (the config-file store never overwrites the final command-line
entry), a config-file value wins over the declared default (it overwrites
the defaulted entry), and the default applies when neither source supplies
the option. -/
theorem merge_precedence (appSchema cfgSchema : List OptionDesc)
    (cli file : List ParsedOpt) (vm : VarMap) (foo : String)
    (od : OptionDesc) (dv : CfgValue)
    (hodApp : appSchema.find? (fun o => o.long_name == foo) = some od)
    (hodCfg : cfgSchema.find? (fun o => o.long_name == foo) = some od)
    (hdv : od.defaultVal = some dv)
    (hres : resolveOptions appSchema cfgSchema cli file = Except.ok vm) :
    (∀ o v, cli.find? (fun x => x.string_key == foo) = some o →
      parseValue od.vtype o.value = some v →
      vmLookup vm foo = some ⟨v, false⟩) ∧
    (cli.find? (fun x => x.string_key == foo) = none →
      ∀ o v, file.find? (fun x => x.string_key == foo) = some o →
      parseValue od.vtype o.value = some v →
      vmLookup vm foo = some ⟨v, false⟩) ∧
    (cli.find? (fun x => x.string_key == foo) = none →
      file.find? (fun x => x.string_key == foo) = none →
      vmLookup vm foo = some ⟨dv, true⟩) := by
  unfold resolveOptions store at hres
  cases hA : storeGiven appSchema cli [] with
  | error e =>
    rw [hA] at hres
    cases hres
  | ok vmA =>
    simp only [hA] at hres
    cases hB : storeGiven cfgSchema file (applyDefaults appSchema vmA) with
    | error e =>
      rw [hB] at hres
      cases hres
    | ok vmB =>
      simp only [hB] at hres
      injection hres with hres
      refine ⟨?_, ?_, ?_⟩
      · intro o v hcli hv
        have hAl : vmLookup vmA foo = some ⟨v, false⟩ :=
          storeGiven_first_occurrence appSchema cli [] vmA foo od o v
            hcli hodApp hv rfl hA
        have h1l : vmLookup (applyDefaults appSchema vmA) foo =
            some ⟨v, false⟩ :=
          applyDefaults_preserves _ _ _ _ hAl
        have hBl : vmLookup vmB foo = some ⟨v, false⟩ :=
          storeGiven_preserves_final cfgSchema file _ vmB foo ⟨v, false⟩
            h1l rfl hB
        rw [← hres]
        exact applyDefaults_preserves _ _ _ _ hBl
      · intro hclin o v hfile hv
        have hAl : vmLookup vmA foo = none :=
          storeGiven_no_occurrence appSchema cli [] vmA foo hclin hA
        have h1l : vmLookup (applyDefaults appSchema vmA) foo =
            some ⟨dv, true⟩ :=
          applyDefaults_default appSchema vmA foo od dv hAl hodApp hdv
        have hfin1 : vmIsFinal (applyDefaults appSchema vmA) foo = false := by
          simp [vmIsFinal, h1l]
        have hBl : vmLookup vmB foo = some ⟨v, false⟩ :=
          storeGiven_first_occurrence cfgSchema file _ vmB foo od o v
            hfile hodCfg hv hfin1 hB
        rw [← hres]
        exact applyDefaults_preserves _ _ _ _ hBl
      · intro hclin hfilen
        have hAl : vmLookup vmA foo = none :=
          storeGiven_no_occurrence appSchema cli [] vmA foo hclin hA
        have h1l : vmLookup (applyDefaults appSchema vmA) foo =
            some ⟨dv, true⟩ :=
          applyDefaults_default appSchema vmA foo od dv hAl hodApp hdv
        have hBl : vmLookup vmB foo = some ⟨dv, true⟩ := by
          rw [storeGiven_no_occurrence cfgSchema file _ vmB foo hfilen hB]
          exact h1l
        rw [← hres]
        exact applyDefaults_preserves _ _ _ _ hBl

theorem merge_precedence_witness :
    resolveOptions
        [⟨"foo", VType.tBool, some (CfgValue.vBool false), some "false", ""⟩]
        [⟨"foo", VType.tBool, some (CfgValue.vBool false), some "false", ""⟩]
        [⟨"foo", ["false"]⟩] [⟨"foo", ["true"]⟩] =
      Except.ok [("foo", ⟨CfgValue.vBool false, false⟩)] ∧
    vmLookup [("foo", ⟨CfgValue.vBool false, false⟩)] "foo" =
      some ⟨CfgValue.vBool false, false⟩ := by
  refine ⟨by decide, ?_⟩
  exact (merge_precedence
    [⟨"foo", VType.tBool, some (CfgValue.vBool false), some "false", ""⟩]
    [⟨"foo", VType.tBool, some (CfgValue.vBool false), some "false", ""⟩]
    [⟨"foo", ["false"]⟩] [⟨"foo", ["true"]⟩]
    [("foo", ⟨CfgValue.vBool false, false⟩)] "foo"
    ⟨"foo", VType.tBool, some (CfgValue.vBool false), some "false", ""⟩
    (CfgValue.vBool false)
    (by decide) (by decide) rfl (by decide)).1
    ⟨"foo", ["false"]⟩ (CfgValue.vBool false) (by decide) (by decide)

theorem hashHead_append (x y : String)
    (h : ∃ r, x.data = '#' :: r) : ∃ q, (x ++ y).data = '#' :: q := by
  obtain ⟨r, hr⟩ := h
  exact ⟨r ++ y.data, by rw [String.data_append, hr]; rfl⟩

theorem hashHead_base (x : String) : ∃ r, ("# " ++ x).data = '#' :: r := by
  refine ⟨' ' :: x.data, ?_⟩
  rw [String.data_append]
  have h2 : ("# " : String).data = ['#', ' '] := by decide
  rw [h2]
  rfl

theorem renderValueLine_hash (od : OptionDesc) :
    ∃ r, (renderValueLine od).data = '#' :: r := by
  unfold renderValueLine
  cases od.defaultVal with
  | none => exact hashHead_append _ _ (hashHead_base od.long_name)
  | some dv =>
    cases od.defaultText with
    | none => exact hashHead_append _ _ (hashHead_base od.long_name)
    | some txt =>
      by_cases hb : (dv.typeOf == VType.tBool)
      · simp only [hb, if_true]
        exact hashHead_append _ _
          (hashHead_append _ _ (hashHead_base od.long_name))
      · simp only [hb, Bool.false_eq_true, if_false]
        exact hashHead_append _ _
          (hashHead_append _ _ (hashHead_base od.long_name))

theorem mem_annotateLast (a : String) (ls : List String) (l : String)
    (h : l ∈ annotateLast a ls) : l ∈ ls ∨ ∃ x ∈ ls, l = x ++ a := by
  induction ls with
  | nil => cases h
  | cons x xs ih =>
    cases xs with
    | nil =>
      simp only [annotateLast, List.mem_singleton] at h
      exact Or.inr ⟨x, by simp, h⟩
    | cons y ys =>
      simp only [annotateLast, List.mem_cons] at h
      rcases h with h | h
      · exact Or.inl (by simp [h])
      · rcases ih h with h2 | ⟨x2, hx2, hl2⟩
        · exact Or.inl (List.mem_cons_of_mem _ h2)
        · exact Or.inr ⟨x2, List.mem_cons_of_mem _ hx2, hl2⟩

theorem renderDescLines_hash (pm : List (String × String)) (od : OptionDesc)
    (l : String) (hl : l ∈ renderDescLines pm od) :
    ∃ r, l.data = '#' :: r := by
  unfold renderDescLines at hl
  by_cases hd : (od.description == "")
  · simp only [hd, if_true] at hl
    cases hl
  · simp only [hd, Bool.false_eq_true, if_false] at hl
    cases hfind : pm.find? (fun p => p.1 == od.long_name) with
    | none =>
      rw [hfind] at hl
      obtain ⟨x, _, rfl⟩ := List.mem_map.mp hl
      exact hashHead_base x
    | some pr =>
      rw [hfind] at hl
      rcases mem_annotateLast _ _ _ hl with h | ⟨x, hx, rfl⟩
      · obtain ⟨y, _, rfl⟩ := List.mem_map.mp h
        exact hashHead_base y
      · obtain ⟨y, _, rfl⟩ := List.mem_map.mp hx
        exact hashHead_append _ _ (hashHead_base y)

theorem trimChars_hash (r : List Char) :
    ∃ ys, trimChars ('#' :: r) = '#' :: ys := by
  unfold trimChars
  have h1 : List.dropWhile isCfgWS ('#' :: r) = '#' :: r := by
    rw [List.dropWhile_cons]
    simp [isCfgWS]
  rw [h1]
  rw [show ('#' :: r).reverse = r.reverse ++ ['#'] by simp]
  rw [List.dropWhile_append]
  by_cases he : (List.dropWhile isCfgWS r.reverse).isEmpty
  · simp only [he, if_true]
    exact ⟨[], by simp [List.dropWhile_cons, isCfgWS]⟩
  · simp only [he, Bool.false_eq_true, if_false]
    exact ⟨(List.dropWhile isCfgWS r.reverse).reverse, by simp⟩

theorem parseConfigLine_comment (line : String) (r : List Char)
    (h : line.data = '#' :: r) : parseConfigLine line = none := by
  unfold parseConfigLine
  rw [h]
  obtain ⟨ys, hys⟩ := trimChars_hash r
  rw [hys]
  simp

theorem parseConfigLine_blank (line : String) (h : line.data = []) :
    parseConfigLine line = none := by
  unfold parseConfigLine
  rw [h]
  rfl

theorem print_default_config_parses_empty (pm : List (String × String))
    (ods : List OptionDesc) :
    parseConfigLines (print_default_config pm ods) = [] := by
  unfold parseConfigLines print_default_config
  rw [List.filterMap_eq_nil_iff]
  intro l hl
  rw [List.mem_flatten] at hl
  obtain ⟨block, hb, hlb⟩ := hl
  rw [List.mem_map] at hb
  obtain ⟨od, _, rfl⟩ := hb
  unfold renderOption at hlb
  rcases List.mem_append.mp hlb with h | h
  · obtain ⟨r, hr⟩ := renderDescLines_hash pm od l h
    exact parseConfigLine_comment l r hr
  · simp only [List.mem_cons, List.not_mem_nil, or_false] at h
    rcases h with rfl | rfl
    · obtain ⟨r, hr⟩ := renderValueLine_hash od
      exact parseConfigLine_comment _ r hr
    · exact parseConfigLine_blank _ rfl

/-- Claim C8: rendering the default-config template with
print_default_config and re-parsing the rendered output through the same
config schema yields, for every option with a declared default, the same
default value as the schema declares: every rendered line is a comment or
blank, so the parse produces no option occurrences and the store resolves
each defaulted option to its schema default. -/
theorem default_config_round_trip (pm : List (String × String))
    (ods : List OptionDesc) (od : OptionDesc) (dv : CfgValue) (foo : String)
    (hfind : ods.find? (fun o => o.long_name == foo) = some od)
    (hdv : od.defaultVal = some dv) :
    parseConfigLines (print_default_config pm ods) = [] ∧
    store ods (parseConfigLines (print_default_config pm ods)) [] =
      Except.ok (applyDefaults ods []) ∧
    vmLookup (applyDefaults ods []) foo = some ⟨dv, true⟩ := by
  have hp := print_default_config_parses_empty pm ods
  refine ⟨hp, ?_, ?_⟩
  · rw [hp]
    rfl
  · exact applyDefaults_default ods [] foo od dv rfl hfind hdv

theorem default_config_round_trip_witness :
    parseConfigLines (print_default_config []
      [⟨"foo", VType.tBool, some (CfgValue.vBool false), some "false",
        "enable foo"⟩]) = [] ∧
    store [⟨"foo", VType.tBool, some (CfgValue.vBool false), some "false",
        "enable foo"⟩]
      (parseConfigLines (print_default_config []
        [⟨"foo", VType.tBool, some (CfgValue.vBool false), some "false",
          "enable foo"⟩])) [] =
      Except.ok (applyDefaults
        [⟨"foo", VType.tBool, some (CfgValue.vBool false), some "false",
          "enable foo"⟩] []) ∧
    vmLookup (applyDefaults
      [⟨"foo", VType.tBool, some (CfgValue.vBool false), some "false",
        "enable foo"⟩] []) "foo" = some ⟨CfgValue.vBool false, true⟩ :=
  default_config_round_trip []
    [⟨"foo", VType.tBool, some (CfgValue.vBool false), some "false",
      "enable foo"⟩]
    ⟨"foo", VType.tBool, some (CfgValue.vBool false), some "false",
      "enable foo"⟩
    (CfgValue.vBool false) "foo" (by decide) rfl

end appbase
